import Mathlib

/-!
Verification of the Genkit python action-runtime core against its
natural-language specification.

The action core (`genkit.core.action`: `ActionKind`, the action-key codec,
`Action.arun` / `Action.stream`, the `ActionRunContext` ambient-context
mechanism and the `GenkitError` wrapper) is exercised by the test-suite in
`src/py/packages/genkit/tests/genkit/core/action_test.py` but its
implementation module is not part of the provided sources, so those parts
are modelled from the spec (each such definition says so in its doc
comment).  The veneer layer (`src/py/packages/genkit/src/genkit/veneer/
veneer.py`) is present and is embedded from the source.
-/

/-- Modelled from the spec: the closed `ActionKind` enumeration of
`genkit.core.action` (not under src/): "custom, model, flow, tool, prompt,
executable-prompt, retriever, indexer, reranker, evaluator, embedder, util",
each with exactly one canonical lower-case token. -/
inductive ActionKind where
  | custom
  | model
  | flow
  | tool
  | prompt
  | executablePrompt
  | retriever
  | indexer
  | reranker
  | evaluator
  | embedder
  | util
deriving DecidableEq, Repr

/-- The canonical lower-case string token of an `ActionKind`. -/
def ActionKind.toToken : ActionKind → String
  | .custom => "custom"
  | .model => "model"
  | .flow => "flow"
  | .tool => "tool"
  | .prompt => "prompt"
  | .executablePrompt => "executable-prompt"
  | .retriever => "retriever"
  | .indexer => "indexer"
  | .reranker => "reranker"
  | .evaluator => "evaluator"
  | .embedder => "embedder"
  | .util => "util"

/-- The twelve `(token, kind)` pairs of the closed enumeration. -/
def kindTokenTable : List (String × ActionKind) :=
  [("custom", .custom), ("model", .model), ("flow", .flow), ("tool", .tool),
   ("prompt", .prompt), ("executable-prompt", .executablePrompt),
   ("retriever", .retriever), ("indexer", .indexer), ("reranker", .reranker),
   ("evaluator", .evaluator), ("embedder", .embedder), ("util", .util)]

/-- Recover an `ActionKind` from its token, if the token is known. -/
def ActionKind.ofToken (s : String) : Option ActionKind :=
  (kindTokenTable.find? (fun p => p.1 == s)).map Prod.snd

/-- Modelled from the spec: `create_action_key` of `genkit.core.action`
(not under src/): "encode(kind, name) -> string: returns
`/` + kind + `/` + name.  No escaping of `/` inside name." -/
def create_action_key (kind : ActionKind) (name : String) : String :=
  "/" ++ kind.toToken ++ "/" ++ name

/-- Split a character list at its first `'/'`: returns the part before and
the part after, or `none` when no `'/'` occurs. -/
def splitFirstSlash : List Char → Option (List Char × List Char)
  | [] => none
  | c :: rest =>
    if c = '/' then some ([], rest)
    else (splitFirstSlash rest).map (fun p => (c :: p.1, p.2))

/-- Modelled from the spec: `parse_action_key` of `genkit.core.action`
(not under src/): "decode(key) fails with InvalidKeyFormat unless key
starts with `/`, contains at least two `/`-separated non-empty segments
after the leading `/`, and the first segment matches a known ActionKind
token.  The remainder (which may itself contain `/`) becomes name.  Empty
string, a bare `/`, a string with no leading `/`, or a string with an
empty name segment all fail."  The error message is the one the tests
match: "Invalid action key format". -/
def parseName (kindChars nameChars : List Char) : Except String (ActionKind × String) :=
  if nameChars = [] then .error "Invalid action key format"
  else
    (ActionKind.ofToken (String.mk kindChars)).elim
      (.error "Invalid action key format")
      (fun kind => .ok (kind, String.mk nameChars))

def parseKeyChars : List Char → Except String (ActionKind × String)
  | [] => .error "Invalid action key format"
  | c :: rest =>
    if c = '/' then
      (splitFirstSlash rest).elim (.error "Invalid action key format")
        (fun p => parseName p.1 p.2)
    else .error "Invalid action key format"

/-- Modelled from the spec: `parse_action_key` of `genkit.core.action`
(not under src/), as `parseKeyChars` run on the key's characters. -/
def parse_action_key (key : String) : Except String (ActionKind × String) :=
  parseKeyChars key.data

example : parse_action_key "/prompt/my-prompt" = .ok (ActionKind.prompt, "my-prompt") := rfl
example : parse_action_key "/model/vertexai/gemini-1.0" = .ok (ActionKind.model, "vertexai/gemini-1.0") := rfl
example : parse_action_key "" = .error "Invalid action key format" := rfl
example : parse_action_key "/" = .error "Invalid action key format" := rfl
example : parse_action_key "/missing-kind" = .error "Invalid action key format" := rfl
example : parse_action_key "missing-name/" = .error "Invalid action key format" := rfl
example : parse_action_key "invalid_key" = .error "Invalid action key format" := rfl
example : create_action_key ActionKind.custom "foo" = "/custom/foo" := rfl

theorem toToken_not_slash (k : ActionKind) : '/' ∉ k.toToken.data := by
  cases k <;> decide

theorem ofToken_toToken (k : ActionKind) : ActionKind.ofToken k.toToken = some k := by
  cases k <;> rfl

theorem kindTokenTable_token (p : String × ActionKind) (hp : p ∈ kindTokenTable) :
    p.1 = p.2.toToken := by
  fin_cases hp <;> rfl

theorem ofToken_eq_some {s : String} {k : ActionKind}
    (h : ActionKind.ofToken s = some k) : s = k.toToken := by
  unfold ActionKind.ofToken at h
  cases hf : kindTokenTable.find? (fun p => p.1 == s) with
  | none => rw [hf] at h; exact Option.noConfusion h
  | some p =>
    rw [hf] at h
    have hm := List.mem_of_find?_eq_some hf
    have heq := List.find?_some hf
    have h2 : p.2 = k := by simpa using h
    rw [← h2, ← kindTokenTable_token p hm]
    exact (eq_of_beq heq).symm

theorem splitFirstSlash_append (a b : List Char) (ha : '/' ∉ a) :
    splitFirstSlash (a ++ '/' :: b) = some (a, b) := by
  induction a with
  | nil => simp [splitFirstSlash]
  | cons c a ih =>
    have hc : ¬ (c = '/') := fun h => ha (h ▸ List.mem_cons_self c a)
    have ha' : '/' ∉ a := fun h => ha (List.mem_cons_of_mem c h)
    simp [splitFirstSlash, hc, ih ha']

theorem splitFirstSlash_some (l : List Char) (a b : List Char)
    (h : splitFirstSlash l = some (a, b)) : l = a ++ '/' :: b ∧ '/' ∉ a := by
  induction l generalizing a b with
  | nil => simp [splitFirstSlash] at h
  | cons c rest ih =>
    simp only [splitFirstSlash] at h
    by_cases hc : c = '/'
    · rw [if_pos hc] at h
      obtain ⟨rfl, rfl⟩ : [] = a ∧ rest = b := by
        simpa [Prod.ext_iff] using h
      simp [hc]
    · rw [if_neg hc] at h
      cases hr : splitFirstSlash rest with
      | none => rw [hr] at h; simp at h
      | some p =>
        rw [hr] at h
        simp at h
        obtain ⟨h1, h2⟩ := h
        obtain ⟨hl, hn⟩ := ih p.1 p.2 (by rw [hr])
        subst h1
        subst h2
        constructor
        · simp [hl]
        · intro hm
          rcases List.mem_cons.mp hm with h' | h'
          · exact hc h'.symm
          · exact hn h'

theorem parse_create (kind : ActionKind) (name : String) (h : name ≠ "") :
    parse_action_key (create_action_key kind name) = .ok (kind, name) := by
  have hdata : (create_action_key kind name).data =
      '/' :: (kind.toToken.data ++ '/' :: name.data) := by
    simp [create_action_key, String.data_append]
  have hne : name.data ≠ [] := fun hh => h (String.ext hh)
  unfold parse_action_key
  rw [hdata]
  have hmk : ∀ s : String, String.mk s.data = s := fun s => rfl
  simp [parseKeyChars, parseName, splitFirstSlash_append _ _ (toToken_not_slash kind),
    hne, hmk, ofToken_toToken]

/-- The success shape the claim describes: the key starts with `/`, its
first `/`-separated segment is a known ActionKind token, and the
(non-empty) remainder is the name; equivalently, the key is the encoding
of some kind and non-empty name. -/
def validActionKey (key : String) : Prop :=
  ∃ kind name, name ≠ "" ∧ key = create_action_key kind name

/-- C5: for every ActionKind `kind` and non-empty `name` (which may contain
`/`), decoding the encoded key returns the original pair —
`parse_action_key (create_action_key kind name) = ok (kind, name)` — and
the encoded key is literally `"/" + kind + "/" + name`, with no escaping of
`/` inside `name`. -/
theorem C5_action_key_roundtrip (kind : ActionKind) (name : String) (h : name ≠ "") :
    parse_action_key (create_action_key kind name) = .ok (kind, name) ∧
    create_action_key kind name = "/" ++ kind.toToken ++ "/" ++ name :=
  ⟨parse_create kind name h, rfl⟩

/-- Witness for C5 at `kind = model`, `name = "vertexai/gemini-1.0"`. -/
theorem C5_action_key_roundtrip_witness :
    parse_action_key (create_action_key ActionKind.model "vertexai/gemini-1.0") =
      .ok (ActionKind.model, "vertexai/gemini-1.0") ∧
    create_action_key ActionKind.model "vertexai/gemini-1.0" =
      "/" ++ ActionKind.model.toToken ++ "/" ++ "vertexai/gemini-1.0" :=
  C5_action_key_roundtrip ActionKind.model "vertexai/gemini-1.0" (by decide)

theorem parseKeyChars_ok {l : List Char} {kind : ActionKind} {name : String}
    (h : parseKeyChars l = .ok (kind, name)) :
    ∃ a b, l = '/' :: (a ++ '/' :: b) ∧ b ≠ [] ∧
      ActionKind.ofToken (String.mk a) = some kind ∧ name = String.mk b := by
  cases l with
  | nil => exact Except.noConfusion h
  | cons c rest =>
    simp only [parseKeyChars] at h
    by_cases hc : c = '/'
    · rw [if_pos hc] at h
      cases hs : splitFirstSlash rest with
      | none => rw [hs, Option.elim_none] at h; exact Except.noConfusion h
      | some pr =>
        rw [hs, Option.elim_some] at h
        unfold parseName at h
        by_cases hb : pr.2 = []
        · rw [if_pos hb] at h; exact Except.noConfusion h
        · rw [if_neg hb] at h
          cases ht : ActionKind.ofToken (String.mk pr.1) with
          | none => rw [ht, Option.elim_none] at h; exact Except.noConfusion h
          | some kind2 =>
            rw [ht, Option.elim_some] at h
            obtain ⟨hk, hn⟩ : kind2 = kind ∧ String.mk pr.2 = name := by
              simpa [Prod.ext_iff] using h
            obtain ⟨hrest, _⟩ := splitFirstSlash_some rest pr.1 pr.2 hs
            exact ⟨pr.1, pr.2, by rw [hc, hrest], hb, hk ▸ ht, hn.symm⟩
    · rw [if_neg hc] at h
      exact Except.noConfusion h

/-- C6: decoding fails with the invalid-key-format error on the empty
string, the bare "/", the single-segment "/missing-kind", a string lacking
a leading "/", and a string with an empty name segment; and decoding
succeeds exactly on keys of the shape `/<known-kind-token>/<non-empty
name>` (the name may itself contain `/`). -/
theorem C6_parse_action_key_failures :
    parse_action_key "" = .error "Invalid action key format" ∧
    parse_action_key "/" = .error "Invalid action key format" ∧
    parse_action_key "/missing-kind" = .error "Invalid action key format" ∧
    parse_action_key "invalid_key" = .error "Invalid action key format" ∧
    parse_action_key "/custom/" = .error "Invalid action key format" ∧
    (∀ key : String, (∃ r, parse_action_key key = .ok r) ↔ validActionKey key) := by
  refine ⟨rfl, rfl, rfl, rfl, rfl, ?_⟩
  intro key
  constructor
  · rintro ⟨⟨kind, name⟩, hok⟩
    obtain ⟨a, b, hdata, hb, ht, hn⟩ := parseKeyChars_ok hok
    have htok := ofToken_eq_some ht
    refine ⟨kind, name, ?_, ?_⟩
    · intro hempty
      apply hb
      have := congrArg String.data (hn.symm.trans hempty)
      simpa using this.symm
    · apply String.ext
      rw [hdata, hn]
      have hta : kind.toToken.data = a := by rw [← htok]
      simp [create_action_key, String.data_append, hta]
  · rintro ⟨kind, name, hne, rfl⟩
    exact ⟨(kind, name), parse_create kind name hne⟩

/-- One incrementally produced unit of a streaming action's output. -/
abbrev Chunk := String

/-- An ambient context mapping (string keys to opaque string values). -/
abbrev Ctx := List (String × String)

/-- Modelled from the spec: `ActionRunContext` of `genkit.core.action` (not
under src/) as seen by an action body: the context mapping and whether a
streaming consumer is attached.  `send_chunk` is modelled as the writer
component of the body's result (`BodyResult` below): the chunks a body
passes to `send_chunk`, in call order, are the first component of its
result. -/
structure ActionRunContext where
  context : Ctx
  streaming : Bool
deriving DecidableEq, Repr

/-- A python exception, identified by its message (`str(e)`). -/
structure PyExn where
  message : String
deriving DecidableEq, Repr

/-- The outcome of running an action body: the chunks sent via
`send_chunk`, in call order, and either a returned value or a raised
exception. -/
abbrev BodyResult (β : Type) := List Chunk × Except PyExn β

/-- Modelled from the spec: the closed set of callable shapes `Action`
accepts (spec 4.3 and 9): arity zero/one/two, direct (sync) or deferred
(async) style.  A deferred body completes through cooperative suspension
but computes the same value, so both styles carry the same function. -/
inductive ActionFn (α β : Type) where
  | sync0 (f : Unit → BodyResult β)
  | sync1 (f : α → BodyResult β)
  | sync2 (f : α → ActionRunContext → BodyResult β)
  | async0 (f : Unit → BodyResult β)
  | async1 (f : α → BodyResult β)
  | async2 (f : α → ActionRunContext → BodyResult β)

/-- Normalization of every callable shape to one internal signature
`(input, context) → result` (spec 9), done once at registration. -/
def ActionFn.normalize {α β : Type} : ActionFn α β → (α → ActionRunContext → BodyResult β)
  | .sync0 f => fun _ _ => f ()
  | .sync1 f => fun i _ => f i
  | .sync2 f => fun i c => f i c
  | .async0 f => fun _ _ => f ()
  | .async1 f => fun i _ => f i
  | .async2 f => fun i c => f i c

/-- The deferred-style counterpart of a direct-style wrapped callable. -/
def ActionFn.toAsync {α β : Type} : ActionFn α β → ActionFn α β
  | .sync0 f => .async0 f
  | .sync1 f => .async1 f
  | .sync2 f => .async2 f
  | x => x

/-- Modelled from the spec: `Action` of `genkit.core.action` (not under
src/): immutable `(kind, name)` identity, a metadata mapping, exactly one
wrapped callable. -/
structure GenkitAction (α β : Type) where
  kind : ActionKind
  name : String
  fn : ActionFn α β
  metadata : List (String × String) := []

/-- Modelled from the spec: `GenkitError` (the StructuredError): message,
original cause, and a details mapping carrying at least the captured stack
and the trace identifier of the invocation's span. -/
structure GenkitError where
  message : String
  cause : PyExn
  details : List (String × String)
deriving DecidableEq, Repr

def lookupDetail (d : List (String × String)) (k : String) : Option String :=
  (d.find? (fun p => p.1 == k)).map Prod.snd

/-- Modelled from the spec (4.5): the error wrapper applied at the action
boundary: message "Error while running action <name>", the original
failure preserved as `cause`, details carrying a captured stack and the
trace id correlated with the call's span. -/
def wrapActionError (name : String) (e : PyExn) (traceId : String) : GenkitError :=
  { message := "Error while running action " ++ name
  , cause := e
  , details := [("stack", "Traceback (most recent call last): " ++ e.message),
                ("trace_id", traceId)] }

/-- The result wrapper `run`/`arun` return on success. -/
structure ActionResponse (β : Type) where
  response : β
  traceId : String
deriving DecidableEq, Repr

/-- The explicit caller context merged over the inherited ambient mapping
(spec 4.3); an explicit entry wins over an inherited one. -/
def mergeCtx (ambient : Ctx) (context : Option Ctx) : Ctx :=
  match context with
  | some c => c ++ ambient
  | none => ambient

/-- The RunContext `arun` builds for the wrapped function (spec 4.3):
ambient mapping merged from caller context and inherited context, chunk
sink attached iff an `on_chunk` callback was supplied. -/
def mkRunCtx (ambient : Ctx) (context : Option Ctx) (streaming : Bool) : ActionRunContext :=
  { context := mergeCtx ambient context, streaming := streaming }

/-- Modelled from the spec (4.3, 4.5): `Action.arun`.  Builds the
RunContext, invokes the wrapped function (normalized shape), forwards each
emitted chunk to `on_chunk` when supplied (else the no-op sink discards
them), and returns the response wrapper on success or raises the wrapped
GenkitError on failure.  The first component is the list of chunks
delivered to `on_chunk`; the error channel carries only GenkitError, so
the original exception cannot escape un-wrapped. -/
def GenkitAction.arun {α β : Type} (a : GenkitAction α β) (input : α) (ambient : Ctx)
    (context : Option Ctx) (onChunk : Bool) (traceId : String) :
    List Chunk × Except GenkitError (ActionResponse β) :=
  let r := a.fn.normalize input (mkRunCtx ambient context onChunk)
  let delivered := if onChunk then r.1 else []
  match r.2 with
  | .ok v => (delivered, .ok { response := v, traceId := traceId })
  | .error e => (delivered, .error (wrapActionError a.name e traceId))

/-- One consumer-visible event of `stream`: a chunk handed to the lazy
sequence, or the resolution of the final-result handle. -/
inductive StreamEvent (β : Type) where
  | chunk (c : Chunk)
  | resolve (r : Except GenkitError β)

/-- What `stream` gives its caller: the chunk sequence, the final-result
handle's eventual value, and the order in which the consumer observes
events. -/
structure StreamOutcome (β : Type) where
  chunks : List Chunk
  final : Except GenkitError β
  trace : List (StreamEvent β)

/-- Modelled from the spec (4.3): `Action.stream`: the wrapped function
runs with a chunk sink attached, each `send_chunk` pushes one element into
the consumable sequence, and the function's return value resolves the
final-result handle once production is exhausted; chunks reach the
consumer in emission order, the resolution strictly after the last chunk. -/
def GenkitAction.stream {α β : Type} (a : GenkitAction α β) (input : α) (ambient : Ctx)
    (context : Option Ctx) (traceId : String) : StreamOutcome β :=
  let r := a.arun input ambient context true traceId
  let fin := r.2.map ActionResponse.response
  { chunks := r.1
  , final := fin
  , trace := r.1.map StreamEvent.chunk ++ [StreamEvent.resolve fin] }

/-- C2: for every action whose body raises an exception `e`, `arun` raises
a GenkitError whose message is "Error while running action <name>", whose
cause is the original exception (so the cause's message equals the
original message), and whose details contain non-empty `stack` and
`trace_id` entries.  The error channel of `arun` carries only
`GenkitError`, so the original exception never escapes un-wrapped. -/
theorem C2_arun_wraps_errors {α β : Type} (a : GenkitAction α β) (input : α)
    (ambient : Ctx) (context : Option Ctx) (onChunk : Bool) (traceId : String)
    (e : PyExn) (htrace : traceId ≠ "")
    (h : (a.fn.normalize input (mkRunCtx ambient context onChunk)).2 = .error e) :
    ∃ ge : GenkitError,
      (a.arun input ambient context onChunk traceId).2 = .error ge ∧
      ge.message = "Error while running action " ++ a.name ∧
      ge.cause = e ∧ ge.cause.message = e.message ∧
      ∃ stack tid,
        lookupDetail ge.details "stack" = some stack ∧ stack ≠ "" ∧
        lookupDetail ge.details "trace_id" = some tid ∧ tid ≠ "" := by
  refine ⟨wrapActionError a.name e traceId, ?_, rfl, rfl, rfl, ?_⟩
  · unfold GenkitAction.arun
    simp [h]
  · refine ⟨"Traceback (most recent call last): " ++ e.message, traceId, rfl, ?_, rfl, htrace⟩
    intro hs
    have := congrArg String.data hs
    simp [String.data_append] at this

/-- The failing action of the error tests: body raises `Exception('oops')`. -/
def fooActionRaises : GenkitAction Unit Nat :=
  { kind := .custom, name := "fooAction"
  , fn := .sync0 (fun _ => ([], .error { message := "oops" })) }

/-- Witness for C2 at the test scenario: `fooAction` raising "oops". -/
theorem C2_arun_wraps_errors_witness :
    ∃ ge : GenkitError,
      (fooActionRaises.arun () [] none false "trace-1").2 = .error ge ∧
      ge.message = "Error while running action " ++ fooActionRaises.name ∧
      ge.cause = { message := "oops" } ∧
      ge.cause.message = PyExn.message { message := "oops" } ∧
      ∃ stack tid,
        lookupDetail ge.details "stack" = some stack ∧ stack ≠ "" ∧
        lookupDetail ge.details "trace_id" = some tid ∧ tid ≠ "" :=
  C2_arun_wraps_errors fooActionRaises () [] none false "trace-1"
    { message := "oops" } (by decide) rfl

/-- C3: `stream` yields exactly the chunks the body passed to `send_chunk`,
in the order they were sent; awaiting the final-result handle yields the
same value `arun` returns for the same input; and in the consumer-visible
event order the resolution of the handle comes strictly after every chunk
(the trace is all chunks in order followed by the resolution). -/
theorem C3_stream_protocol {α β : Type} (a : GenkitAction α β) (input : α)
    (ambient : Ctx) (context : Option Ctx) (traceId : String) :
    (a.stream input ambient context traceId).chunks =
      (a.fn.normalize input (mkRunCtx ambient context true)).1 ∧
    (a.stream input ambient context traceId).final =
      (a.arun input ambient context true traceId).2.map ActionResponse.response ∧
    (a.stream input ambient context traceId).trace =
      ((a.stream input ambient context traceId).chunks.map StreamEvent.chunk) ++
        [StreamEvent.resolve (a.stream input ambient context traceId).final] := by
  refine ⟨?_, rfl, rfl⟩
  unfold GenkitAction.stream GenkitAction.arun
  cases hr : (a.fn.normalize input (mkRunCtx ambient context true)).2 <;> simp [hr]

/-- C4: for every action body, input and contexts, `arun` with an
`on_chunk` callback delivers to the callback exactly the chunks the body
emitted, in emission order, and the returned wrapper's `response` equals
the body's return value whenever the body returns — in particular also
when no chunks were emitted. -/
theorem C4_arun_chunk_callback {α β : Type} (a : GenkitAction α β) (input : α)
    (ambient : Ctx) (context : Option Ctx) (traceId : String) :
    (a.arun input ambient context true traceId).1 =
      (a.fn.normalize input (mkRunCtx ambient context true)).1 ∧
    ∀ v, (a.fn.normalize input (mkRunCtx ambient context true)).2 = .ok v →
      (a.arun input ambient context true traceId).2 =
        .ok { response := v, traceId := traceId } := by
  constructor
  · unfold GenkitAction.arun
    cases hr : (a.fn.normalize input (mkRunCtx ambient context true)).2 <;> simp [hr]
  · intro v hv
    unfold GenkitAction.arun
    simp [hv]

/-- The streaming test body: sends chunks "1" then "2", returns 3. -/
def syncFooStreaming : GenkitAction String Nat :=
  { kind := .custom, name := "syncFoo"
  , fn := .sync2 (fun _ _ => (["1", "2"], .ok 3)) }

/-- Witness for C4 at the test scenario: chunks "1","2" delivered in order
and response 3. -/
theorem C4_arun_chunk_callback_witness :
    (syncFooStreaming.arun "foo" [] (some [("foo", "bar")]) true "t").1 = ["1", "2"] ∧
    (syncFooStreaming.arun "foo" [] (some [("foo", "bar")]) true "t").2 =
      .ok { response := 3, traceId := "t" } := by
  have h := C4_arun_chunk_callback syncFooStreaming "foo" [] (some [("foo", "bar")]) "t"
  exact ⟨h.1.trans rfl, h.2 3 rfl⟩

/-- C7: a deferred-style (async) action behaves identically to its
direct-style (sync) counterpart wrapping the same logic: `arun` produces
the same delivered chunks and the same result; in particular an action
wrapping a zero-argument function returning a literal value yields that
literal as `response` in both styles. -/
theorem C7_sync_async_equivalence {α β : Type} (fn : ActionFn α β)
    (kind : ActionKind) (name : String) (input : α) (ambient : Ctx)
    (context : Option Ctx) (onChunk : Bool) (traceId : String) (v : β) :
    GenkitAction.arun { kind := kind, name := name, fn := fn.toAsync }
        input ambient context onChunk traceId =
      GenkitAction.arun { kind := kind, name := name, fn := fn }
        input ambient context onChunk traceId ∧
    (GenkitAction.arun { kind := kind, name := name, fn := .sync0 (fun _ => ([], .ok v)) }
        input ambient context false traceId).2 =
      .ok { response := v, traceId := traceId } ∧
    (GenkitAction.arun { kind := kind, name := name, fn := .async0 (fun _ => ([], .ok v)) }
        input ambient context false traceId).2 =
      .ok { response := v, traceId := traceId } := by
  refine ⟨?_, rfl, rfl⟩
  unfold GenkitAction.arun
  cases fn <;> rfl

/-- One atomic step of a top-level invocation's call chain, at the
granularity of the suspension points of spec 5. -/
inductive CallOp where
  | bindCtx    -- the top-level arun binds its supplied context into the call tree's task-local storage
  | nestedCall -- a nested arun with no explicit context: task-local storage is inherited untouched
  | readCtx    -- the innermost body reads the ambient context back
deriving DecidableEq, Repr

/-- The call chain of one top-level invocation that reads its ambient
context back through `depth` levels of nested action calls (the test's
baz → bar → foo shape has `depth = 2`). -/
def invProgram (depth : Nat) : List CallOp :=
  CallOp.bindCtx :: (List.replicate depth CallOp.nestedCall ++ [CallOp.readCtx])

/-- Modelled from the spec: one concurrently outstanding top-level `arun`
invocation under the contextvar mechanism of `genkit.core.action` (not
under src/).  Spec 4.2/5/9 mandate that the ambient context live in
task-local (context-variable) storage scoped to a single call tree — never
in a field shared between trees — so each invocation owns its
`taskLocal` slot. -/
structure Invocation where
  supplied : Ctx
  taskLocal : Ctx
  todo : List CallOp
  observed : Option Ctx
deriving DecidableEq, Repr

def initInvocation (c : Ctx) (depth : Nat) : Invocation :=
  { supplied := c, taskLocal := [], todo := invProgram depth, observed := none }

/-- Execute the invocation's next pending operation (a no-op when the
chain has completed). -/
def stepInvocation (s : Invocation) : Invocation :=
  match s.todo with
  | [] => s
  | op :: rest =>
    match op with
    | .bindCtx => { s with taskLocal := s.supplied, todo := rest }
    | .nestedCall => { s with todo := rest }
    | .readCtx => { s with observed := some s.taskLocal, todo := rest }

/-- Two concurrently outstanding invocations advanced by an arbitrary
interleaving schedule: `true` steps the first call tree, `false` the
second.  Each step touches only its own tree's task-local storage. -/
def runSchedule : List Bool → Invocation × Invocation → Invocation × Invocation
  | [], st => st
  | b :: rest, (s1, s2) =>
    runSchedule rest (if b then (stepInvocation s1, s2) else (s1, stepInvocation s2))

def countTrue : List Bool → Nat
  | [] => 0
  | b :: rest => countTrue rest + (if b then 1 else 0)

def countFalse : List Bool → Nat
  | [] => 0
  | b :: rest => countFalse rest + (if b then 0 else 1)

/-- The per-tree safety invariant: the supplied context is never mutated,
anything observed is the tree's own context, once the initial bind has run
the task-local slot holds the supplied context, and once `readCtx` has
executed the observation is recorded. -/
def invCoherent (c : Ctx) (depth : Nat) (s : Invocation) : Prop :=
  s.supplied = c ∧
  s.todo <:+ invProgram depth ∧
  (s.observed = none ∨ s.observed = some c) ∧
  ((∃ rest, s.todo = CallOp.bindCtx :: rest) ∨ s.taskLocal = c) ∧
  (CallOp.readCtx ∉ s.todo → s.observed = some c)

theorem suffix_tail_of_suffix {α : Type} {x : α} {xs m : List α}
    (h : (x :: xs) <:+ m) : xs <:+ m := by
  obtain ⟨p, hp⟩ := h
  exact ⟨p ++ [x], by simpa using hp⟩

theorem bindCtx_not_mem_body (depth : Nat) :
    CallOp.bindCtx ∉ List.replicate depth CallOp.nestedCall ++ [CallOp.readCtx] := by
  intro h
  rcases List.mem_append.mp h with h' | h'
  · exact absurd (List.eq_of_mem_replicate h') (by simp)
  · simp at h'

theorem bind_suffix_is_whole {depth : Nat} {rest : List CallOp}
    (h : (CallOp.bindCtx :: rest) <:+ invProgram depth) :
    rest = List.replicate depth CallOp.nestedCall ++ [CallOp.readCtx] := by
  obtain ⟨p, hp⟩ := h
  cases p with
  | nil => simpa [invProgram] using hp
  | cons b p' =>
    exfalso
    apply bindCtx_not_mem_body depth
    have : b :: (p' ++ CallOp.bindCtx :: rest) = invProgram depth := by simpa using hp
    have hb : p' ++ CallOp.bindCtx :: rest =
        List.replicate depth CallOp.nestedCall ++ [CallOp.readCtx] := by
      have := congrArg List.tail this
      simpa [invProgram] using this
    rw [← hb]
    simp

theorem step_todo_cons {s : Invocation} {op : CallOp} {rest : List CallOp}
    (h : s.todo = op :: rest) : (stepInvocation s).todo = rest := by
  unfold stepInvocation
  rw [h]
  cases op <;> rfl

theorem stepInvocation_coherent {c : Ctx} {depth : Nat} {s : Invocation}
    (h : invCoherent c depth s) : invCoherent c depth (stepInvocation s) := by
  obtain ⟨h1, h2, h3, h4, h5⟩ := h
  cases ht : s.todo with
  | nil =>
    have : stepInvocation s = s := by unfold stepInvocation; rw [ht]
    rw [this]
    exact ⟨h1, h2, h3, h4, h5⟩
  | cons op rest =>
    rw [ht] at h2
    cases op with
    | bindCtx =>
      have hstep : stepInvocation s =
          { s with taskLocal := s.supplied, todo := rest } := by
        unfold stepInvocation; rw [ht]
      rw [hstep]
      have hrest := bind_suffix_is_whole h2
      refine ⟨h1, suffix_tail_of_suffix h2, h3, Or.inr h1, ?_⟩
      intro hnr
      exfalso
      apply hnr
      rw [hrest]
      simp
    | nestedCall =>
      have hstep : stepInvocation s = { s with todo := rest } := by
        unfold stepInvocation; rw [ht]
      rw [hstep]
      have htl : s.taskLocal = c := by
        rcases h4 with ⟨r, hr⟩ | htl
        · rw [ht] at hr; exact absurd hr (by simp)
        · exact htl
      refine ⟨h1, suffix_tail_of_suffix h2, h3, Or.inr htl, ?_⟩
      intro hnr
      apply h5
      rw [ht]
      intro hmem
      rcases List.mem_cons.mp hmem with h' | h'
      · exact absurd h' (by simp)
      · exact hnr h'
    | readCtx =>
      have hstep : stepInvocation s =
          { s with observed := some s.taskLocal, todo := rest } := by
        unfold stepInvocation; rw [ht]
      rw [hstep]
      have htl : s.taskLocal = c := by
        rcases h4 with ⟨r, hr⟩ | htl
        · rw [ht] at hr; exact absurd hr (by simp)
        · exact htl
      exact ⟨h1, suffix_tail_of_suffix h2, Or.inr (by rw [htl]),
        Or.inr htl, fun _ => by rw [htl]⟩

theorem initInvocation_coherent (c : Ctx) (depth : Nat) :
    invCoherent c depth (initInvocation c depth) := by
  refine ⟨rfl, List.suffix_refl _, Or.inl rfl, Or.inl ⟨_, rfl⟩, ?_⟩
  intro hnr
  exfalso
  apply hnr
  simp [initInvocation, invProgram]

theorem iterate_coherent (c : Ctx) (depth : Nat) (k : Nat) :
    invCoherent c depth (stepInvocation^[k] (initInvocation c depth)) := by
  induction k with
  | zero => exact initInvocation_coherent c depth
  | succ k ih =>
    rw [Function.iterate_succ_apply']
    exact stepInvocation_coherent ih

theorem iterate_todo_nil (s : Invocation) (k : Nat) (hk : s.todo.length ≤ k) :
    (stepInvocation^[k] s).todo = [] := by
  induction k generalizing s with
  | zero =>
    have := Nat.le_zero.mp hk
    simpa using List.eq_nil_of_length_eq_zero this
  | succ k ih =>
    cases ht : s.todo with
    | nil =>
      have hstep : stepInvocation s = s := by unfold stepInvocation; rw [ht]
      rw [Function.iterate_succ_apply, hstep]
      exact ih s (by rw [ht]; simp)
    | cons op rest =>
      rw [Function.iterate_succ_apply]
      apply ih
      rw [step_todo_cons ht]
      rw [ht] at hk
      simpa using Nat.lt_succ_iff.mp (Nat.lt_of_lt_of_le (by simp) hk)

theorem invocation_observes_own (c : Ctx) (depth : Nat) (k : Nat)
    (hk : depth + 2 ≤ k) :
    (stepInvocation^[k] (initInvocation c depth)).observed = some c := by
  have hinv := iterate_coherent c depth k
  have hlen : (initInvocation c depth).todo.length ≤ k := by
    simp [initInvocation, invProgram]
    omega
  have hnil := iterate_todo_nil (initInvocation c depth) k hlen
  exact hinv.2.2.2.2 (by rw [hnil]; simp)

theorem runSchedule_eq (sched : List Bool) (s1 s2 : Invocation) :
    runSchedule sched (s1, s2) =
      (stepInvocation^[countTrue sched] s1, stepInvocation^[countFalse sched] s2) := by
  induction sched generalizing s1 s2 with
  | nil => rfl
  | cons b rest ih =>
    cases b
    · show runSchedule rest (s1, stepInvocation s2) = _
      rw [ih]
      simp [countTrue, countFalse, Function.iterate_succ_apply]
    · show runSchedule rest (stepInvocation s1, s2) = _
      rw [ih]
      simp [countTrue, countFalse, Function.iterate_succ_apply]

/-- C1: two concurrently outstanding top-level invocations, each given a
distinct ambient context mapping and each reading the ambient context back
through at least two levels of nested action calls that pass no explicit
context, each observe exactly their own supplied mapping and never the
other invocation's, for every interleaving schedule under which both call
chains complete.  Isolation comes from the task-local (contextvar) storage
the spec mandates: a step of one call tree never touches the other's. -/
theorem C1_concurrent_context_isolation (c1 c2 : Ctx) (depth1 depth2 : Nat)
    (hd1 : 2 ≤ depth1) (hd2 : 2 ≤ depth2) (hne : c1 ≠ c2) (sched : List Bool)
    (h1 : depth1 + 2 ≤ countTrue sched) (h2 : depth2 + 2 ≤ countFalse sched) :
    (runSchedule sched (initInvocation c1 depth1, initInvocation c2 depth2)).1.observed
      = some c1 ∧
    (runSchedule sched (initInvocation c1 depth1, initInvocation c2 depth2)).2.observed
      = some c2 ∧
    (runSchedule sched (initInvocation c1 depth1, initInvocation c2 depth2)).1.observed
      ≠ some c2 ∧
    (runSchedule sched (initInvocation c1 depth1, initInvocation c2 depth2)).2.observed
      ≠ some c1 := by
  rw [runSchedule_eq]
  have o1 := invocation_observes_own c1 depth1 (countTrue sched) h1
  have o2 := invocation_observes_own c2 depth2 (countFalse sched) h2
  refine ⟨o1, o2, ?_, ?_⟩
  · rw [o1]
    intro hc
    exact hne (Option.some.inj hc)
  · rw [o2]
    intro hc
    exact hne (Option.some.inj hc).symm

/-- Witness for C1 at the test scenario: contexts `{foo: bar}` and
`{bar: baz}`, two levels of nesting each, under a strictly alternating
schedule. -/
theorem C1_concurrent_context_isolation_witness :
    (runSchedule [true, false, true, false, true, false, true, false]
        (initInvocation [("foo", "bar")] 2, initInvocation [("bar", "baz")] 2)).1.observed
      = some [("foo", "bar")] ∧
    (runSchedule [true, false, true, false, true, false, true, false]
        (initInvocation [("foo", "bar")] 2, initInvocation [("bar", "baz")] 2)).2.observed
      = some [("bar", "baz")] ∧
    (runSchedule [true, false, true, false, true, false, true, false]
        (initInvocation [("foo", "bar")] 2, initInvocation [("bar", "baz")] 2)).1.observed
      ≠ some [("bar", "baz")] ∧
    (runSchedule [true, false, true, false, true, false, true, false]
        (initInvocation [("foo", "bar")] 2, initInvocation [("bar", "baz")] 2)).2.observed
      ≠ some [("foo", "bar")] :=
  C1_concurrent_context_isolation [("foo", "bar")] [("bar", "baz")] 2 2
    (by decide) (by decide) (by decide) [true, false, true, false, true, false, true, false]
    (by decide) (by decide)

/-- A plugin as `Genkit.__init__` sees it: `plugin_name()` is the
namespace it registers under; the plugin's identity determines whose
`resolve_action` a resolver call runs. -/
structure Plugin where
  pluginName : String
deriving DecidableEq, Repr

/-- The observable state of the resolver-registration loop of
`Genkit.__init__` (src veneer.py lines 58-94).  The nested
`def resolver(kind, name): return plugin.resolve_action(self, kind, name)`
closes over the loop variable `plugin` by reference (python function-scope
late binding), not over its value at the iteration that created it, so
every registered resolver reads the one shared `plugin` variable when it
is invoked; `pluginCell` models that shared variable.  `defaultModel`
records the unconditional `self.registry.default_model = model`
assignment. -/
structure GenkitInitState where
  resolverNamespaces : List String
  pluginCell : Option Plugin
  defaultModel : Option String
deriving DecidableEq, Repr

/-- One iteration of the plugin loop: register a resolver under
`plugin.plugin_name()` and advance the shared loop variable. -/
def genkitInitStep (st : GenkitInitState) (p : Plugin) : GenkitInitState :=
  { st with resolverNamespaces := st.resolverNamespaces ++ [p.pluginName]
          , pluginCell := some p }

/-- Embedding of `Genkit.__init__` (veneer.py lines 58-94): sets
`default_model` with no validation, then runs the plugin loop. -/
def genkitInit (plugins : List Plugin) (model : Option String) : GenkitInitState :=
  plugins.foldl genkitInitStep
    { resolverNamespaces := [], pluginCell := none, defaultModel := model }

/-- Invoking, after construction, the resolver registered under namespace
`ns`: the closure body reads the shared loop variable at call time, so it
runs `resolve_action` on whatever plugin that variable holds — the plugin
of the final loop iteration.  Returns the plugin whose `resolve_action`
runs, or `none` when no resolver is registered for `ns`. -/
def dispatchResolver (st : GenkitInitState) (ns : String) : Option Plugin :=
  if ns ∈ st.resolverNamespaces then st.pluginCell else none

/-- C8 (code_bug evidence): with two plugins, a resolver callback is
registered under each plugin's own namespace, but the resolver registered
under the first plugin's namespace invokes `resolve_action` on the second
(last) plugin — every resolver closure reads the shared loop variable
`plugin`, which after the loop holds the last plugin — contradicting the
claim that each namespace's resolver delegates to its own plugin. -/
theorem C8_resolver_late_binding_bug :
    (∀ p ∈ [Plugin.mk "p1", Plugin.mk "p2"],
      p.pluginName ∈ (genkitInit [Plugin.mk "p1", Plugin.mk "p2"] none).resolverNamespaces) ∧
    dispatchResolver (genkitInit [Plugin.mk "p1", Plugin.mk "p2"] none) "p1"
      = some (Plugin.mk "p2") ∧
    dispatchResolver (genkitInit [Plugin.mk "p1", Plugin.mk "p2"] none) "p1"
      ≠ some (Plugin.mk "p1") := by
  refine ⟨?_, rfl, ?_⟩
  · intro p hp
    rcases List.mem_cons.mp hp with h | h
    · subst h; exact List.mem_cons_self _ _
    · rcases List.mem_cons.mp h with h' | h'
      · subst h'
        exact List.mem_cons_of_mem _ (List.mem_cons_self _ _)
      · simp at h'
  · intro h
    have := Option.some.inj h
    have hname := congrArg Plugin.pluginName this
    simp at hname

/-- A content part of a message (`genkit.core.typing.Part`, an external
collaborator of the veneer; only the shape `generate` builds is needed):
a text part or some other (non-text) part value.  A pydantic Part object
defines neither `__bool__` nor `__len__`, so it is always truthy. -/
inductive MsgPart where
  | textPart (text : String)
  | otherPart (tag : String)
deriving DecidableEq, Repr

inductive MsgRole where
  | system
  | user
deriving DecidableEq, Repr

structure Message where
  role : MsgRole
  content : Option (List MsgPart)
deriving DecidableEq, Repr

/-- The python value passed as `prompt` / `system`
(`str | Part | list[Part] | None`). -/
inductive PromptArg where
  | absent
  | str (s : String)
  | part (p : MsgPart)
  | parts (ps : List MsgPart)
deriving DecidableEq, Repr

/-- Python truthiness of a prompt argument: `None`, `''` and `[]` are
falsy; a Part object and any non-empty string or list are truthy. -/
def PromptArg.truthy : PromptArg → Bool
  | .absent => false
  | .str s => !(s == "")
  | .part _ => true
  | .parts ps => !ps.isEmpty

/-- Embedding of `_normalize_prompt_arg` (veneer.py lines 239-247): a
falsy argument returns python `None`; a string becomes a single-element
`TextPart` list; a value with `__len__` (a list) is returned unchanged;
any other `Part` is wrapped in a singleton list. -/
def normalize_prompt_arg (prompt : PromptArg) : Option (List MsgPart) :=
  if prompt.truthy = false then none
  else match prompt with
    | .absent => none
    | .str s => some [MsgPart.textPart s]
    | .parts ps => some ps
    | .part p => some [p]

/-- The `config` argument of `generate`
(`GenerationCommonConfig | dict | None`), plus the ill-typed values the
`isinstance` check rejects; a dict is falsy iff empty. -/
inductive GenConfig where
  | common
  | dictConfig (nonEmpty : Bool)
  | badValue
deriving DecidableEq, Repr

def configTruthy : Option GenConfig → Bool
  | none => false
  | some .common => true
  | some (.dictConfig ne) => ne
  | some .badValue => true

def configWellTyped : GenConfig → Bool
  | .common => true
  | .dictConfig _ => true
  | .badValue => false

/-- Python `model or default_model` on `str | None` values: the first
operand when truthy (a non-empty string), else the second. -/
def pyStrOr (a b : Option String) : Option String :=
  match a with
  | some s => if s = "" then b else some s
  | none => b

/-- What the prefix of `Genkit.generate` does before any action runs:
raise "No model configured.", raise the invalid-config AttributeError, or
invoke `generate_action` with the resolved model and message list. -/
inductive GenerateOutcome where
  | noModelError
  | invalidConfigError
  | invoked (model : String) (messages : List Message)
deriving DecidableEq, Repr

/-- Embedding of `Genkit.generate` (veneer.py lines 171-218) up to the
`generate_action` call: `model = model or self.registry.default_model`,
the `model is None` check, the config `isinstance` check, and the
resolved-message construction (system message if `system` is truthy, then
`messages`, then a user message if `prompt` is truthy). -/
def generate (defaultModel model : Option String) (config : Option GenConfig)
    (system prompt : PromptArg) (messages : List Message) : GenerateOutcome :=
  (pyStrOr model defaultModel).elim .noModelError fun m =>
    if configTruthy config && !(config.elim true configWellTyped) then
      .invalidConfigError
    else
      .invoked m
        ((if system.truthy then
            [{ role := MsgRole.system, content := normalize_prompt_arg system }]
          else []) ++
         messages ++
         (if prompt.truthy then
            [{ role := MsgRole.user, content := normalize_prompt_arg prompt }]
          else []))

theorem genkitInit_foldl_defaultModel (plugins : List Plugin) (st : GenkitInitState) :
    (plugins.foldl genkitInitStep st).defaultModel = st.defaultModel := by
  induction plugins generalizing st with
  | nil => rfl
  | cons p rest ih => exact ih (genkitInitStep st p)

theorem pyStrOr_eq_none (a b : Option String) :
    pyStrOr a b = none ↔ (a = none ∨ a = some "") ∧ b = none := by
  cases a with
  | none => simp [pyStrOr]
  | some s =>
    by_cases hs : s = ""
    · subst hs
      simp [pyStrOr]
    · simp [pyStrOr, hs]

/-- C9 counterexample: with the registry's default model unset and the
`model` argument set to the empty string (a non-None value), `generate`
still raises the "No model configured." error — the `model or
default_model` fallback treats the falsy empty string like an absent
argument — so the claimed "error iff both arguments are unset" is false
at this input. -/
theorem C9_model_unset_counterexample :
    ¬(generate none (some "") none PromptArg.absent PromptArg.absent [] =
        GenerateOutcome.noModelError ↔
      ((some "" : Option String) = none ∧ (none : Option String) = none)) := by
  decide

/-- C9 (amended): the registry's default-model slot accepts any value
(including none) without validation when set by the Genkit constructor;
`Genkit.generate` raises the "No model configured." error if and only if
the registry's `default_model` is unset and the `model` argument is unset
or the empty string; and when it does, `generate_action` — and so any
wrapped action function — is never invoked, so the error is not wrapped
as an action-execution error. -/
theorem C9_default_model_use_time_validation (plugins : List Plugin)
    (model0 defaultModel model : Option String) (config : Option GenConfig)
    (system prompt : PromptArg) (messages : List Message) :
    (genkitInit plugins model0).defaultModel = model0 ∧
    (generate defaultModel model config system prompt messages =
        GenerateOutcome.noModelError ↔
      (model = none ∨ model = some "") ∧ defaultModel = none) ∧
    (generate defaultModel model config system prompt messages =
        GenerateOutcome.noModelError →
      ∀ m msgs, generate defaultModel model config system prompt messages ≠
        GenerateOutcome.invoked m msgs) := by
  refine ⟨genkitInit_foldl_defaultModel plugins _, ?_, ?_⟩
  · rw [← pyStrOr_eq_none]
    unfold generate
    cases h : pyStrOr model defaultModel with
    | none => simp
    | some m =>
      rw [Option.elim_some]
      constructor
      · intro hcontra
        exfalso
        revert hcontra
        split <;> exact fun hcontra => GenerateOutcome.noConfusion hcontra
      · intro hf
        exact Option.noConfusion hf
  · intro hno m msgs hinv
    exact GenerateOutcome.noConfusion (hno.symm.trans hinv)

/-- Witness for C9 at empty plugin list, everything unset. -/
theorem C9_default_model_use_time_validation_witness :
    (genkitInit [] none).defaultModel = none ∧
    (generate none none none PromptArg.absent PromptArg.absent [] =
        GenerateOutcome.noModelError ↔
      ((none : Option String) = none ∨ (none : Option String) = some "") ∧
        (none : Option String) = none) ∧
    (generate none none none PromptArg.absent PromptArg.absent [] =
        GenerateOutcome.noModelError →
      ∀ m msgs, generate none none none PromptArg.absent PromptArg.absent [] ≠
        GenerateOutcome.invoked m msgs) :=
  C9_default_model_use_time_validation [] none none none none
    PromptArg.absent PromptArg.absent []

/-- C10: a falsy `prompt` (or `system`) argument — absent, the empty
string, or an empty list — normalizes to python None and contributes no
message to the resolved message list (`generate` behaves as if the
argument were absent), while a non-empty string prompt becomes a
single-element text-part list. -/
theorem C10_falsy_prompt_not_appended (defaultModel model : Option String)
    (config : Option GenConfig) (system : PromptArg) (messages : List Message)
    (prompt : PromptArg) (hfalsy : prompt.truthy = false) (s : String)
    (hs : s ≠ "") :
    normalize_prompt_arg prompt = none ∧
    generate defaultModel model config system prompt messages =
      generate defaultModel model config system PromptArg.absent messages ∧
    generate defaultModel model config prompt system messages =
      generate defaultModel model config PromptArg.absent system messages ∧
    normalize_prompt_arg (PromptArg.str s) = some [MsgPart.textPart s] := by
  have hsd : (s == "") = false := by
    simpa using hs
  have habs : PromptArg.absent.truthy = false := rfl
  refine ⟨?_, ?_, ?_, ?_⟩
  · simp [normalize_prompt_arg, hfalsy]
  · unfold generate
    simp [hfalsy, habs]
  · unfold generate
    simp [hfalsy, habs]
  · have hstr : (PromptArg.str s).truthy = !(s == "") := rfl
    simp [normalize_prompt_arg, hstr, hsd]

/-- Witness for C10 at `prompt = ''` (empty string) and `s = "hello"`. -/
theorem C10_falsy_prompt_not_appended_witness :
    normalize_prompt_arg (PromptArg.str "") = none ∧
    generate (some "m") none none PromptArg.absent (PromptArg.str "") [] =
      generate (some "m") none none PromptArg.absent PromptArg.absent [] ∧
    generate (some "m") none none (PromptArg.str "") PromptArg.absent [] =
      generate (some "m") none none PromptArg.absent PromptArg.absent [] ∧
    normalize_prompt_arg (PromptArg.str "hello") =
      some [MsgPart.textPart "hello"] :=
  C10_falsy_prompt_not_appended (some "m") none none PromptArg.absent []
    (PromptArg.str "") (by decide) "hello" (by decide)
